import Mathlib

/-!
# BladeRunner: verification of the agent control subsystems

Shallow embedding of the BladeRunner agent's control subsystems
(`bladerunner/permissions.py`, `safety.py`, `agent.py`, `evaluation.py`,
`tool_tracker.py`, `semantic_memory.py`) together with theorems settling
the specification claims about them.

Conventions used throughout:
* Python `float` quantities that arise as exact ratios of integers
  (success rates, similarity scores) are modelled as `ℚ`.
* Python dictionaries (which iterate in insertion order) are modelled as
  association lists; Python sets of strings are modelled as lists with
  membership tests.
* `input()` interactions are modelled by passing the operator's (stripped,
  lower-cased) reply as an explicit argument; a `KeyboardInterrupt` /
  `EOFError` during the prompt is a separate constructor.
* Wall-clock values (`time.time()`, `datetime.now().isoformat()`) are
  passed in as explicit arguments.
-/

namespace BladeRunner

/-! ## Permissions (`bladerunner/permissions.py`) -/

/-- `PermissionLevel` enum from `permissions.py`. -/
inductive PermissionLevel where
  | allow : PermissionLevel
  | deny : PermissionLevel
  | ask : PermissionLevel
deriving DecidableEq, Repr

/-- Glob matching of a name against a pattern, as `fnmatch.fnmatch` performs
it on a POSIX system (`normcase` is the identity there): `*` matches any
sequence of characters (including separators) — phrased here as the rest of
the pattern matching some suffix of the name — `?` matches any single
character, and every other character matches itself.  Character classes
(`[seq]`) are not modelled; no pattern in any built-in profile uses them.
First argument is the pattern, second the name, both as char lists. -/
def globMatch : List Char → List Char → Bool
  | [], n => n.isEmpty
  | '*' :: ps, n => n.tails.any (fun suffix => globMatch ps suffix)
  | '?' :: _, [] => false
  | '?' :: ps, _ :: cs => globMatch ps cs
  | _ :: _, [] => false
  | p :: ps, c :: cs => decide (p = c) && globMatch ps cs

/-- `fnmatch(target, pattern)` as used by `PermissionChecker`. -/
def fnmatch (target pattern : String) : Bool :=
  globMatch pattern.toList target.toList

/-- One rule category (the value of `rules["files"]["read"]` etc.): optional
deny patterns, optional allow patterns, and an optional default level.
A missing list is the empty list (`rules.get("deny", [])`). -/
structure Rules where
  deny : List String
  allow : List String
  defaultLevel : Option PermissionLevel
deriving DecidableEq, Repr

/-- `PermissionChecker._check_permission`: deny patterns are checked first,
then allow patterns, then the configured default
(`rules.get("default", "ask")`). -/
def checkPermission (target : String) (rules : Rules) : PermissionLevel :=
  match rules.deny.find? (fun pattern => fnmatch target pattern) with
  | some _ => .deny
  | none =>
    match rules.allow.find? (fun pattern => fnmatch target pattern) with
    | some _ => .allow
    | none => rules.defaultLevel.getD .ask

/-- A permission profile: the three rule categories of `_load_profile`. -/
structure Profile where
  filesRead : Rules
  filesWrite : Rules
  bash : Rules
deriving DecidableEq, Repr

/-- The `"permissive"` profile of `_load_profile`. -/
def permissiveProfile : Profile :=
  { filesRead := ⟨[], [], some .allow⟩
    filesWrite := ⟨[], [], some .allow⟩
    bash := ⟨[], [], some .allow⟩ }

/-- The `"standard"` profile of `_load_profile`. -/
def standardProfile : Profile :=
  { filesRead := ⟨["**/secret*", "**/.env*", "**/password*"], [], some .allow⟩
    filesWrite := ⟨["**/production/**", "**/prod/**"],
      ["test/**", "docs/**", "*.md"], some .ask⟩
    bash := ⟨["rm -rf *", "sudo *", "curl * | *", "wget * | *"], [], some .ask⟩ }

/-- The `"strict"` profile of `_load_profile`. -/
def strictProfile : Profile :=
  { filesRead := ⟨["**/secret*", "**/.env*"], [], some .ask⟩
    filesWrite := ⟨[], ["test/**"], some .deny⟩
    bash := ⟨[], ["ls *", "cat *", "grep *", "echo *"], some .deny⟩ }

/-- `PermissionChecker._load_profile`: unknown names fall back to standard. -/
def loadProfile (profile : String) : Profile :=
  if profile = "permissive" then permissiveProfile
  else if profile = "strict" then strictProfile
  else standardProfile

/-- `PermissionChecker.check_file_read`. -/
def checkFileRead (profile : Profile) (filePath : String) : PermissionLevel :=
  checkPermission filePath profile.filesRead

/-- `PermissionChecker.check_file_write`. -/
def checkFileWrite (profile : Profile) (filePath : String) : PermissionLevel :=
  checkPermission filePath profile.filesWrite

/-- `PermissionChecker.check_bash_command`. -/
def checkBashCommand (profile : Profile) (command : String) : PermissionLevel :=
  checkPermission command profile.bash

/-! ## Critical operations and the approval cache (`bladerunner/safety.py`) -/

/-- The mutable state of a `CriticalOperation` instance: the two caches
`approved_operations` and `denied_operations` (Python `Set[str]`, modelled
as lists queried by membership). -/
structure CriticalOperation where
  approvedOperations : List String
  deniedOperations : List String
deriving DecidableEq, Repr

/-- The fresh state built by `CriticalOperation.__init__`. -/
def initialCriticalOperation : CriticalOperation := ⟨[], []⟩

/-- `CriticalOperation._hash_operation`: the string
`f"{operation}:{details}"` truncated to its first 100 characters (Python
slicing is by characters; we take the first 100 chars of the
concatenation). -/
def hashOperation (operation details : String) : String :=
  String.mk ((operation ++ ":" ++ details).toList.take 100)

/-- What the operator does when `input()` is called during
`prompt_approval`: either a reply (already `.strip().lower()`-ed, as the
code applies those before branching) or a `KeyboardInterrupt`/`EOFError`. -/
inductive PromptOutcome where
  | response : String → PromptOutcome
  | interrupted : PromptOutcome
deriving DecidableEq, Repr

/-- Result of one `prompt_approval` call: the returned boolean, whether
`input()` was actually reached (the operator was prompted), and the state
of the caches afterwards. -/
structure ApprovalResult where
  approved : Bool
  prompted : Bool
  state : CriticalOperation
deriving DecidableEq, Repr

/-- `CriticalOperation.prompt_approval`: a hit in `approved_operations`
returns `True` without prompting, a hit in `denied_operations` returns
`False` without prompting; otherwise the operator is prompted, and only
`"a"`/`"always"` (cached approval) or any reply other than
`"y"`/`"yes"`/`"a"`/`"always"` (cached denial) populate a cache — a plain
`"y"`/`"yes"` returns `True` uncached, an interrupt returns `False`
uncached. -/
def promptApproval (st : CriticalOperation) (operation details : String)
    (ans : PromptOutcome) : ApprovalResult :=
  let opHash := hashOperation operation details
  if opHash ∈ st.approvedOperations then
    ⟨true, false, st⟩
  else if opHash ∈ st.deniedOperations then
    ⟨false, false, st⟩
  else
    match ans with
    | .response s =>
      if s = "y" ∨ s = "yes" then ⟨true, true, st⟩
      else if s = "a" ∨ s = "always" then
        ⟨true, true,
          { st with approvedOperations := st.approvedOperations ++ [opHash] }⟩
      else
        ⟨false, true,
          { st with deniedOperations := st.deniedOperations ++ [opHash] }⟩
    | .interrupted => ⟨false, true, st⟩

/-- One observed approval request in a run: the pair asked about and what
`prompt_approval` did for it. -/
structure ApprovalTraceEntry where
  operation : String
  details : String
  approved : Bool
  prompted : Bool
deriving DecidableEq, Repr

/-- Run a sequence of critical-operation approval requests through one
`CriticalOperation` instance (one process lifetime), recording for each
request whether the operator was prompted and the returned decision. -/
def runApprovals (st : CriticalOperation) :
    List (String × String × PromptOutcome) →
    List ApprovalTraceEntry × CriticalOperation
  | [] => ([], st)
  | (op, det, ans) :: rest =>
    let r := promptApproval st op det ans
    let tailRun := runApprovals r.state rest
    (⟨op, det, r.approved, r.prompted⟩ :: tailRun.1, tailRun.2)

/-! ## Retryable tool execution (`bladerunner/agent.py`,
`Agent._execute_tool_with_retry`) -/

/-- `REFLECTION_KEYWORDS` from `agent.py`. -/
def REFLECTION_KEYWORDS : List String :=
  ["error", "failed", "traceback", "exception", "not found",
   "permission denied", "invalid"]

/-- `RETRY_CONFIG` lookup with the default `{"max_retries": 1,
"backoff_factor": 1}` for unknown tools; returns
`(max_retries, backoff_factor)`. -/
def retryConfigFor (functionName : String) : Nat × ℚ :=
  if functionName = "Bash" then (3, 2)
  else if functionName = "Read" then (2, 3 / 2)
  else if functionName = "Write" then (2, 3 / 2)
  else if functionName = "WebSearch" then (2, 2)
  else (1, 1)

/-- What one attempt of `_execute_tool_with_permissions` produced: a result
string, or an exception (caught by the retry loop). -/
inductive ExecOutcome where
  | ok : String → ExecOutcome
  | exc : String → ExecOutcome
deriving DecidableEq, Repr

/-- Observable outcome of `_execute_tool_with_retry`: the returned string,
the reflection messages appended to the conversation (`self.messages`), the
zero-based attempt indices at which a reflection message was appended, and
the final `self.last_tool_output`. -/
structure RetryOutcome where
  result : String
  appendedMessages : List String
  reflectedAt : List Nat
  lastToolOutput : Option String
deriving DecidableEq, Repr

/-- The `for attempt in range(max_retries)` loop of
`_execute_tool_with_retry`, recursing on the number of remaining attempts.
`shouldReflect` is `_should_reflect_on_output` (keyword classification),
`reflect` is `_reflect_on_execution` (its secondary completion call,
returning `""` when reflection is disabled or fails); `outcomes i` is what
attempt `i` of `_execute_tool_with_permissions` produces.  On a
reflection-worthy (non-exception) result the reflection, when non-empty, is
appended to the conversation; the backoff sleep (elided here) is the only
step guarded by `attempt < max_retries - 1`.  After the loop,
`last_error or "Tool execution failed after retries"` is stored and
returned (Python `or`: an empty-string last error also falls back). -/
def retryGo (shouldReflect : String → Bool) (reflect : String → String)
    (functionName : String) (outcomes : Nat → ExecOutcome) :
    Nat → Nat → Option String → List String → List Nat → RetryOutcome
  | 0, _, lastError, msgs, refls =>
    let final := match lastError with
      | some e => if e = "" then "Tool execution failed after retries" else e
      | none => "Tool execution failed after retries"
    ⟨final, msgs, refls, some final⟩
  | remaining + 1, attempt, _lastError, msgs, refls =>
    match outcomes attempt with
    | .ok result =>
      if ¬ shouldReflect result then
        ⟨result, msgs, refls, some result⟩
      else
        let reflection := reflect result
        let msgs' := if reflection ≠ "" then
            msgs ++ ["[Reflecting on " ++ functionName ++ " error]\n" ++ reflection]
          else msgs
        let refls' := if reflection ≠ "" then refls ++ [attempt] else refls
        retryGo shouldReflect reflect functionName outcomes
          remaining (attempt + 1) (some result) msgs' refls'
    | .exc e =>
      retryGo shouldReflect reflect functionName outcomes
        remaining (attempt + 1) (some e) msgs refls

/-- `Agent._execute_tool_with_retry` with retry enabled: run the attempt
loop for the tool's configured `max_retries`, starting with no last error
and no appended messages. -/
def executeToolWithRetry (shouldReflect : String → Bool)
    (reflect : String → String) (functionName : String)
    (outcomes : Nat → ExecOutcome) : RetryOutcome :=
  retryGo shouldReflect reflect functionName outcomes
    (retryConfigFor functionName).1 0 none [] []

/-! ## Evaluation (`bladerunner/evaluation.py`) -/

/-- The `TaskExecution` dataclass (`duration`/`tokens_per_second` are
derived properties, not fields).  Times are `ℚ` seconds. -/
structure TaskExecution where
  taskId : String
  prompt : String
  startTime : ℚ
  endTime : Option ℚ
  success : Bool
  iterations : Nat
  totalTokens : Nat
  promptTokens : Nat
  completionTokens : Nat
  toolsUsed : List String
  errorMessage : Option String
  model : Option String
deriving DecidableEq, Repr

/-- The in-memory state of an `AgentEvaluator` (the metrics files are
modelled by the pure summary function below). -/
structure AgentEvaluator where
  currentExecution : Option TaskExecution
  executionsHistory : List TaskExecution
deriving DecidableEq, Repr

/-- `AgentEvaluator.__init__` with no pre-existing history on disk. -/
def initialEvaluator : AgentEvaluator := ⟨none, []⟩

/-- `AgentEvaluator.start_task`: begin tracking a fresh `TaskExecution`
(task id derived from the clock, everything else zeroed). -/
def startTask (ev : AgentEvaluator) (prompt : String) (model : Option String)
    (now : ℚ) : AgentEvaluator :=
  let fresh : TaskExecution :=
    { taskId := "task_" ++ toString ⌊now * 1000⌋
      prompt := prompt
      startTime := now
      endTime := none
      success := false
      iterations := 0
      totalTokens := 0
      promptTokens := 0
      completionTokens := 0
      toolsUsed := []
      errorMessage := none
      model := model }
  { ev with currentExecution := some fresh }

/-- `AgentEvaluator.record_iteration`. -/
def recordIteration (ev : AgentEvaluator) : AgentEvaluator :=
  match ev.currentExecution with
  | some cur =>
    { ev with currentExecution := some ({ cur with iterations := cur.iterations + 1 }) }
  | none => ev

/-- `AgentEvaluator.record_tokens`. -/
def recordTokens (ev : AgentEvaluator) (total promptT completionT : Nat) :
    AgentEvaluator :=
  match ev.currentExecution with
  | some cur =>
    let cur' := { cur with
      totalTokens := cur.totalTokens + total
      promptTokens := cur.promptTokens + promptT
      completionTokens := cur.completionTokens + completionT }
    { ev with currentExecution := some cur' }
  | none => ev

/-- `AgentEvaluator.end_task`: finalize the current execution (if any) with
the outcome and append it to the history; the summary file is recomputed
from the new history (see `summarize`) and the current execution is
cleared. -/
def endTask (ev : AgentEvaluator) (success : Bool) (errorMessage : Option String)
    (now : ℚ) : AgentEvaluator :=
  match ev.currentExecution with
  | none => ev
  | some cur =>
    let finalized := { cur with
      endTime := some now
      success := success
      errorMessage := errorMessage }
    { currentExecution := none
      executionsHistory := ev.executionsHistory ++ [finalized] }

/-- The aggregate summary written by `AgentEvaluator._update_summary`
(`last_updated`, per-tool usage and per-model statistics are elided: no
claim mentions them). -/
structure EvaluationSummary where
  totalTasks : Nat
  successfulTasks : Nat
  failedTasks : Nat
  successRate : ℚ
  avgIterationsPerTask : ℚ
  avgDurationSeconds : ℚ
  totalTokensUsed : Nat
  avgTokensPerTask : ℚ
deriving DecidableEq, Repr

/-- `AgentEvaluator._update_summary` as a pure function of the execution
history.  `durations` keeps only truthy values, as the Python
comprehension filters on `e.duration` (absent or zero durations drop
out). -/
def summarize (history : List TaskExecution) : EvaluationSummary :=
  let totalTasks := history.length
  let successfulTasks := (history.filter (fun e => e.success)).length
  let failedTasks := totalTasks - successfulTasks
  let totalIterations := (history.map (fun e => e.iterations)).sum
  let totalTokens := (history.map (fun e => e.totalTokens)).sum
  let durations := history.filterMap (fun e =>
    match e.endTime with
    | some t => if t - e.startTime ≠ 0 then some (t - e.startTime) else none
    | none => none)
  let avgDuration := if durations ≠ [] then durations.sum / durations.length else 0
  { totalTasks := totalTasks
    successfulTasks := successfulTasks
    failedTasks := failedTasks
    successRate := if 0 < totalTasks then (successfulTasks : ℚ) / totalTasks else 0
    avgIterationsPerTask :=
      if 0 < totalTasks then (totalIterations : ℚ) / totalTasks else 0
    avgDurationSeconds := avgDuration
    totalTokensUsed := totalTokens
    avgTokensPerTask := if 0 < totalTasks then (totalTokens : ℚ) / totalTasks else 0 }

/-! ## The agent loop (`bladerunner/agent.py`, `Agent.execute`) -/

/-- `MAX_ITERATIONS` from `agent.py`. -/
def MAX_ITERATIONS : Nat := 50

/-- What one iteration of the agent loop observes from the completion
service: a response carrying tool calls (the loop continues), a terminal
response with no tool calls (its content is returned), an exception raised
during the iteration, or a user interrupt. -/
inductive ModelStep where
  | toolCalls : ModelStep
  | terminal : String → ModelStep
  | failure : String → ModelStep
  | interrupt : ModelStep
deriving DecidableEq, Repr

/-- The `for iteration in range(MAX_ITERATIONS)` loop of `Agent.execute`
(lines 410-494), modelled with evaluation tracking enabled, recursing on
the remaining iteration budget with `i` the absolute iteration index.
Each iteration first records itself with the evaluator; a terminal
response ends the task successfully and returns its content; an exception
or interrupt ends the task as a failure and returns an error string;
exhausting the budget ends the task as a failure with
`"Max iterations reached"` and returns the warning string.  (The
memory/session side effects of the loop are not modelled: no claim
mentions them.) -/
def agentLoopGo (steps : Nat → ModelStep) (endTime : ℚ) :
    Nat → Nat → AgentEvaluator → String × AgentEvaluator
  | 0, _, ev =>
    ("Warning: Reached max iterations (" ++ toString MAX_ITERATIONS ++ ")",
     endTask ev false (some "Max iterations reached") endTime)
  | remaining + 1, i, ev =>
    let ev' := recordIteration ev
    match steps i with
    | .toolCalls => agentLoopGo steps endTime remaining (i + 1) ev'
    | .terminal content => (content, endTask ev' true none endTime)
    | .failure e => ("Error: " ++ e, endTask ev' false (some e) endTime)
    | .interrupt =>
      ("\nInterrupted by user",
       endTask ev' false (some "Interrupted by user") endTime)

/-- `Agent.execute` restricted to its agent loop: run up to
`MAX_ITERATIONS` iterations from iteration index 0. -/
def executeAgent (steps : Nat → ModelStep) (endTime : ℚ)
    (ev : AgentEvaluator) : String × AgentEvaluator :=
  agentLoopGo steps endTime MAX_ITERATIONS 0 ev

/-- The finalized `TaskExecution` produced when the loop exhausts its
budget: `n` further iterations recorded, then `end_task(success=False,
"Max iterations reached")`. -/
def finalizedMaxIter (cur : TaskExecution) (n : Nat) (endTime : ℚ) :
    TaskExecution :=
  { cur with
      iterations := cur.iterations + n
      endTime := some endTime
      success := false
      errorMessage := some "Max iterations reached" }

/-! ## Tool effectiveness tracking (`bladerunner/tool_tracker.py`) -/

/-- One tool's statistics record as stored in `ToolTracker.stats`
(one value of the per-tool dict).  `errors` is the error-kind histogram,
an insertion-ordered dict. -/
structure ToolStats where
  total : Nat
  successful : Nat
  failed : Nat
  successRate : ℚ
  lastUsed : Option String
  errors : List (String × Nat)
deriving DecidableEq, Repr

/-- The zeroed record created on first sight of a tool name. -/
def freshToolStats : ToolStats := ⟨0, 0, 0, 0, none, []⟩

/-- The full statistics table `ToolTracker.stats`: an insertion-ordered
dict from tool name to record. -/
abbrev ToolStatsTable : Type := List (String × ToolStats)

/-- Dict lookup `self.stats[tool_name]`. -/
def lookupStats (stats : ToolStatsTable) (toolName : String) : Option ToolStats :=
  (stats.find? (fun kv => kv.1 = toolName)).map (fun kv => kv.2)

/-- In-place dict update of one key's value. -/
def updateStats (stats : ToolStatsTable) (toolName : String)
    (f : ToolStats → ToolStats) : ToolStatsTable :=
  stats.map (fun kv => if kv.1 = toolName then (kv.1, f kv.2) else kv)

/-- `stats["errors"][error_type] = stats["errors"].get(error_type, 0) + 1`
on the insertion-ordered histogram. -/
def bumpError (errors : List (String × Nat)) (errorType : String) :
    List (String × Nat) :=
  if (errors.find? (fun kv => kv.1 = errorType)).isSome then
    errors.map (fun kv => if kv.1 = errorType then (kv.1, kv.2 + 1) else kv)
  else
    errors ++ [(errorType, 1)]

/-- The per-record update performed by `ToolTracker.record_execution` once
the entry exists: bump `total`, stamp `last_used`, bump
`successful`/`failed`, on failure with a non-empty error bucket it by the
substring before the first `":"`, then recompute
`success_rate = successful / total`. -/
def recordStep (st : ToolStats) (success : Bool) (error : Option String)
    (now : String) : ToolStats :=
  let st1 := { st with total := st.total + 1, lastUsed := some now }
  let st2 :=
    if success then { st1 with successful := st1.successful + 1 }
    else
      let st1' := { st1 with failed := st1.failed + 1 }
      match error with
      | some e =>
        if e ≠ "" then
          { st1' with errors := bumpError st1'.errors ((e.splitOn ":").headD "") }
        else st1'
      | none => st1'
  { st2 with successRate := (st2.successful : ℚ) / (st2.total : ℚ) }

/-- `ToolTracker.record_execution` restricted to the durable `self.stats`
table (the per-session counters and the synchronous `_save_stats` call are
modelled separately): create a zeroed entry on first sight, then apply
`recordStep`. -/
def recordExecution (stats : ToolStatsTable) (toolName : String)
    (success : Bool) (error : Option String) (now : String) : ToolStatsTable :=
  let stats' :=
    if (stats.find? (fun kv => kv.1 = toolName)).isSome then stats
    else stats ++ [(toolName, freshToolStats)]
  updateStats stats' toolName (fun st => recordStep st success error now)

/-- One row of `ToolTracker.get_reliability_ranking`. -/
structure RankEntry where
  tool : String
  successRate : ℚ
  total : Nat
  successful : Nat
deriving DecidableEq, Repr

/-- `ToolTracker.get_reliability_ranking`: keep tools with at least 3
recorded attempts and sort by success rate descending (`sorted` with
`reverse=True` is a stable descending sort, here insertion sort with the
reflexive ≥-on-rate relation). -/
def getReliabilityRanking (stats : ToolStatsTable) : List RankEntry :=
  let tools := (stats.filter (fun kv => 3 ≤ kv.2.total)).map
    (fun kv => RankEntry.mk kv.1 kv.2.successRate kv.2.total kv.2.successful)
  List.insertionSort (fun a b => b.successRate ≤ a.successRate) tools

/-- Run a sequence of `record_execution` calls for one tool against the
statistics table; each event is `(success, error, timestamp)`. -/
def applyEvents (stats : ToolStatsTable) (toolName : String)
    (events : List (Bool × Option String × String)) : ToolStatsTable :=
  events.foldl (fun s e => recordExecution s toolName e.1 e.2.1 e.2.2) stats

/-! ## JSON persistence of the statistics table
(`ToolTracker._save_stats` / `ToolTracker._load_stats`)

`_save_stats` serializes `self.stats` with `json.dump`; `_load_stats`
parses it back with `json.load` (yielding `{}` when the file is missing or
unreadable).  We model the durable storage at the level of the parsed JSON
document: `saveStats` is the JSON document `json.dump` writes, and
`loadStats` reads a document back into a table, with the same shape
`_save_stats` produces (numeric counters, a fractional success rate,
a nullable string, and the nested error histogram). -/

/-- JSON values, restricted to the forms the statistics table uses.
Numbers are `ℚ` (ints and floats; `json.dump`/`json.load` round-trips
both exactly). -/
inductive Json where
  | null : Json
  | num : ℚ → Json
  | str : String → Json
  | obj : List (String × Json) → Json
deriving Repr

/-- Read back a non-negative integer counter. -/
def decodeNat : Json → Option Nat
  | .num q => if q.den = 1 ∧ 0 ≤ q.num then some q.num.toNat else none
  | _ => none

/-- Serialize the error histogram as a JSON object. -/
def encodeErrors (errors : List (String × Nat)) : Json :=
  .obj (errors.map (fun kv => (kv.1, Json.num (kv.2 : ℚ))))

/-- Read back the error histogram. -/
def decodeErrors : Json → Option (List (String × Nat))
  | .obj fields => fields.mapM (fun kv => (decodeNat kv.2).map (fun n => (kv.1, n)))
  | _ => none

/-- Serialize one tool's record, with the field layout `record_execution`
maintains. -/
def encodeToolStats (st : ToolStats) : Json :=
  .obj [("total", .num (st.total : ℚ)),
        ("successful", .num (st.successful : ℚ)),
        ("failed", .num (st.failed : ℚ)),
        ("success_rate", .num st.successRate),
        ("last_used", match st.lastUsed with | none => .null | some s => .str s),
        ("errors", encodeErrors st.errors)]

/-- Read back one tool's record. -/
def decodeToolStats : Json → Option ToolStats
  | .obj [("total", jt), ("successful", js), ("failed", jf),
          ("success_rate", jr), ("last_used", jl), ("errors", je)] => do
    let total ← decodeNat jt
    let successful ← decodeNat js
    let failed ← decodeNat jf
    let rate ← match jr with | .num q => some q | _ => none
    let lastUsed ← match jl with
      | .null => some none
      | .str s => some (some s)
      | _ => none
    let errors ← decodeErrors je
    some ⟨total, successful, failed, rate, lastUsed, errors⟩
  | _ => none

/-- `ToolTracker._save_stats`: the JSON document written to
`tool_stats.json`. -/
def saveStats (stats : ToolStatsTable) : Json :=
  .obj (stats.map (fun kv => (kv.1, encodeToolStats kv.2)))

/-- `ToolTracker._load_stats`: read a statistics table back from a JSON
document; anything unreadable yields the empty table `{}`. -/
def loadStats (j : Json) : ToolStatsTable :=
  let parsed : Option ToolStatsTable :=
    match j with
    | .obj fields =>
      fields.mapM (fun kv => (decodeToolStats kv.2).map (fun st => (kv.1, st)))
    | _ => none
  parsed.getD []

/-! ## Semantic memory (`bladerunner/semantic_memory.py`) -/

/-- Python `str.split()` with no argument: split a character stream on
runs of whitespace, dropping empty pieces; `acc` holds the reversed
characters of the word being read. -/
def splitWsAux : List Char → List Char → List String
  | [], acc => if acc = [] then [] else [String.mk acc.reverse]
  | c :: cs, acc =>
    if c.isWhitespace then
      if acc = [] then splitWsAux cs []
      else String.mk acc.reverse :: splitWsAux cs []
    else splitWsAux cs (c :: acc)

/-- Python `s.split()` on a string. -/
def splitWhitespaceWords (s : String) : List String :=
  splitWsAux s.toList []

/-- The word set used by the similarity measure:
`set(s.lower().split())`, modelled as a deduplicated word list. -/
def pythonWords (s : String) : List String :=
  (splitWsAux (s.toList.map Char.toLower) []).dedup

/-- `SimpleTextSimilarity.jaccard_similarity`: Jaccard index of the word
sets of the two strings (intersection size over union size on the
deduplicated word lists), `0` when either word set is empty. -/
def jaccardSimilarity (str1 str2 : String) : ℚ :=
  let words1 := pythonWords str1
  let words2 := pythonWords str2
  if words1 = [] ∨ words2 = [] then 0
  else
    let intersection := (words1.filter (fun w => w ∈ words2)).length
    let union := (words1 ∪ words2).length
    if 0 < union then (intersection : ℚ) / (union : ℚ) else 0

/-- `SimpleTextSimilarity.token_overlap` delegates to
`jaccard_similarity`. -/
def tokenOverlap (str1 str2 : String) : ℚ :=
  jaccardSimilarity str1 str2

/-- One stored solution record (the JSONL row written per solution).
`tools_used` is built as `list(tools)` from the Python `set` accumulated by
`_extract_tools`; since a `set` of strings iterates in an unspecified
(hash-randomized) order, only the set itself is determined by the program,
and the field is modelled as that set. -/
structure Solution where
  task : String
  steps : List String
  timestamp : String
  toolsUsed : Finset String
deriving DecidableEq

/-- Substring containment test on character lists. -/
def containsSub (needle haystack : List Char) : Bool :=
  haystack.tails.any (fun suffix => needle.isPrefixOf suffix)

/-- What one step of the `_extract_tools` loop does. -/
inductive StepTool where
  | skip : StepTool
  | tool : String → StepTool
  | raises : StepTool
deriving DecidableEq

/-- One iteration of the `_extract_tools` loop over a step: when
`"tool:" in step.lower()`, Python evaluates
`step.split("tool:")[1].strip().split()[0]` on the original step, which
raises `IndexError` if the marker occurs only in mixed case (no `"tool:"`
in the un-lowered step, so `split` yields a single piece) or if nothing but
whitespace follows the first marker (`.strip().split()` is empty);
otherwise it contributes the first whitespace-delimited token after the
first marker.  Steps without the marker are skipped. -/
def stepTool (step : String) : StepTool :=
  if containsSub "tool:".toList (step.toList.map Char.toLower) then
    match step.splitOn "tool:" with
    | _ :: rest :: _ =>
      match splitWhitespaceWords rest with
      | [] => .raises
      | w :: _ => .tool w
    | _ => .raises
  else .skip

/-- `SemanticMemory._extract_tools`: fold the loop over the execution
path, accumulating the tool set; `none` when some step raises (the
exception aborts the loop, so later steps are not examined). -/
def extractTools (executionPath : List String) : Option (Finset String) :=
  executionPath.foldl
    (fun acc step =>
      match acc with
      | none => none
      | some tools =>
        match stepTool step with
        | .skip => some tools
        | .tool t => some (insert t tools)
        | .raises => none)
    (some ∅)

/-- `SemanticMemory.store_solution` on the in-memory solution list: a call
with `success=False` returns before touching the path; a successful one
builds the record (running `_extract_tools`, whose `IndexError` — `none` —
propagates to the caller with nothing stored) and appends it (persistence
is modelled by the same list). -/
def storeSolution (solutions : List Solution) (taskDescription : String)
    (executionPath : List String) (success : Bool) (now : String) :
    Option (List Solution) :=
  if ¬ success then some solutions
  else
    match extractTools executionPath with
    | none => none
    | some tools =>
      some (solutions ++ [⟨taskDescription, executionPath, now, tools⟩])

/-- `SemanticMemory.find_similar_solutions`: score every stored solution
against the query by `token_overlap`, keep those at or above `threshold`,
sort by similarity descending (`list.sort` with `reverse=True`, a stable
descending sort, here insertion sort), and return the first `limit`
underlying solutions. -/
def findSimilarSolutions (solutions : List Solution) (taskDescription : String)
    (threshold : ℚ) (limit : Nat) : List Solution :=
  if solutions = [] then []
  else
    let similarities := solutions.filterMap (fun sol =>
      let similarity := tokenOverlap taskDescription sol.task
      if threshold ≤ similarity then some (sol, similarity) else none)
    let sortedSims :=
      List.insertionSort (fun a b => b.2 ≤ a.2) similarities
    (sortedSims.take limit).map (fun item => item.1)

/-! ## Approval-cache lemmas -/

theorem runApprovals_nil (st : CriticalOperation) : runApprovals st [] = ([], st) :=
  rfl

theorem runApprovals_cons (st : CriticalOperation) (op det : String)
    (ans : PromptOutcome) (rest : List (String × String × PromptOutcome)) :
    runApprovals st ((op, det, ans) :: rest) =
      (⟨op, det, (promptApproval st op det ans).approved,
          (promptApproval st op det ans).prompted⟩
        :: (runApprovals (promptApproval st op det ans).state rest).1,
       (runApprovals (promptApproval st op det ans).state rest).2) :=
  rfl

/-- A hit in the approved cache short-circuits: approved, unprompted,
state unchanged. -/
theorem promptApproval_hit_approved (st : CriticalOperation) (op det : String)
    (ans : PromptOutcome) (h : hashOperation op det ∈ st.approvedOperations) :
    promptApproval st op det ans = ⟨true, false, st⟩ := by
  simp [promptApproval, h]

/-- A hit in the denied cache short-circuits: denied, unprompted, state
unchanged. -/
theorem promptApproval_hit_denied (st : CriticalOperation) (op det : String)
    (ans : PromptOutcome) (h1 : hashOperation op det ∉ st.approvedOperations)
    (h2 : hashOperation op det ∈ st.deniedOperations) :
    promptApproval st op det ans = ⟨false, false, st⟩ := by
  simp [promptApproval, h1, h2]

/-- The approved cache only grows. -/
theorem promptApproval_mem_approved {x : String} (st : CriticalOperation)
    (op det : String) (ans : PromptOutcome) (h : x ∈ st.approvedOperations) :
    x ∈ (promptApproval st op det ans).state.approvedOperations := by
  by_cases h1 : hashOperation op det ∈ st.approvedOperations
  · rw [promptApproval_hit_approved st op det ans h1]; exact h
  · by_cases h2 : hashOperation op det ∈ st.deniedOperations
    · rw [promptApproval_hit_denied st op det ans h1 h2]; exact h
    · cases ans with
      | response s =>
        by_cases h3 : s = "y" ∨ s = "yes"
        · simp only [promptApproval, if_neg h1, if_neg h2, if_pos h3]; exact h
        · by_cases h4 : s = "a" ∨ s = "always"
          · simp only [promptApproval, if_neg h1, if_neg h2, if_neg h3, if_pos h4]
            exact List.mem_append_left _ h
          · simp only [promptApproval, if_neg h1, if_neg h2, if_neg h3, if_neg h4]
            exact h
      | interrupted =>
        simp only [promptApproval, if_neg h1, if_neg h2]; exact h

/-- The denied cache only grows. -/
theorem promptApproval_mem_denied {x : String} (st : CriticalOperation)
    (op det : String) (ans : PromptOutcome) (h : x ∈ st.deniedOperations) :
    x ∈ (promptApproval st op det ans).state.deniedOperations := by
  by_cases h1 : hashOperation op det ∈ st.approvedOperations
  · rw [promptApproval_hit_approved st op det ans h1]; exact h
  · by_cases h2 : hashOperation op det ∈ st.deniedOperations
    · rw [promptApproval_hit_denied st op det ans h1 h2]; exact h
    · cases ans with
      | response s =>
        by_cases h3 : s = "y" ∨ s = "yes"
        · simp only [promptApproval, if_neg h1, if_neg h2, if_pos h3]; exact h
        · by_cases h4 : s = "a" ∨ s = "always"
          · simp only [promptApproval, if_neg h1, if_neg h2, if_neg h3, if_pos h4]
            exact h
          · simp only [promptApproval, if_neg h1, if_neg h2, if_neg h3, if_neg h4]
            exact List.mem_append_left _ h
      | interrupted =>
        simp only [promptApproval, if_neg h1, if_neg h2]; exact h

/-- After an `"a"`/`"always"` reply on a cache miss, the key joins the
approved cache and the denied cache is unchanged. -/
theorem promptApproval_always_state (st : CriticalOperation) (op det s : String)
    (h1 : hashOperation op det ∉ st.approvedOperations)
    (h2 : hashOperation op det ∉ st.deniedOperations)
    (hs : s = "a" ∨ s = "always") :
    promptApproval st op det (.response s) =
      ⟨true, true,
        { st with approvedOperations :=
            st.approvedOperations ++ [hashOperation op det] }⟩ := by
  have hy : ¬ (s = "y" ∨ s = "yes") := by
    rcases hs with rfl | rfl <;> decide
  simp only [promptApproval, if_neg h1, if_neg h2, if_neg hy, if_pos hs]

/-- After any reply other than `"y"`/`"yes"`/`"a"`/`"always"` on a cache
miss, the key joins the denied cache and the approved cache is
unchanged. -/
theorem promptApproval_denial_state (st : CriticalOperation) (op det s : String)
    (h1 : hashOperation op det ∉ st.approvedOperations)
    (h2 : hashOperation op det ∉ st.deniedOperations)
    (hy : ¬ (s = "y" ∨ s = "yes")) (ha : ¬ (s = "a" ∨ s = "always")) :
    promptApproval st op det (.response s) =
      ⟨false, true,
        { st with deniedOperations :=
            st.deniedOperations ++ [hashOperation op det] }⟩ := by
  simp only [promptApproval, if_neg h1, if_neg h2, if_neg hy, if_neg ha]

/-- In any run starting from a state whose approved cache holds `key`,
every request hashing to `key` is silently approved. -/
theorem runApprovals_approved_replay (key : String) :
    ∀ (reqs : List (String × String × PromptOutcome)) (st : CriticalOperation),
      key ∈ st.approvedOperations →
      ∀ e ∈ (runApprovals st reqs).1,
        hashOperation e.operation e.details = key →
        e.prompted = false ∧ e.approved = true := by
  intro reqs
  induction reqs with
  | nil => intro st _ e he; simp [runApprovals_nil] at he
  | cons head rest ih =>
    obtain ⟨op, det, ans⟩ := head
    intro st hkey e he hhash
    rw [runApprovals_cons] at he
    rcases List.mem_cons.mp he with rfl | he
    · have : hashOperation op det ∈ st.approvedOperations := by
        simpa [hhash] using hkey
      rw [promptApproval_hit_approved st op det ans this]
      exact ⟨rfl, rfl⟩
    · exact ih (promptApproval st op det ans).state
        (promptApproval_mem_approved st op det ans hkey) e he hhash

/-- In any run starting from a state whose denied cache holds `key` (and
whose approved cache does not), every request hashing to `key` is silently
denied. -/
theorem runApprovals_denied_replay (key : String) :
    ∀ (reqs : List (String × String × PromptOutcome)) (st : CriticalOperation),
      key ∈ st.deniedOperations → key ∉ st.approvedOperations →
      ∀ e ∈ (runApprovals st reqs).1,
        hashOperation e.operation e.details = key →
        e.prompted = false ∧ e.approved = false := by
  intro reqs
  induction reqs with
  | nil => intro st _ _ e he; simp [runApprovals_nil] at he
  | cons head rest ih =>
    obtain ⟨op, det, ans⟩ := head
    intro st hden happ e he hhash
    have hpres : key ∈ (promptApproval st op det ans).state.deniedOperations ∧
        key ∉ (promptApproval st op det ans).state.approvedOperations := by
      by_cases h1 : hashOperation op det ∈ st.approvedOperations
      · rw [promptApproval_hit_approved st op det ans h1]; exact ⟨hden, happ⟩
      · by_cases h2 : hashOperation op det ∈ st.deniedOperations
        · rw [promptApproval_hit_denied st op det ans h1 h2]; exact ⟨hden, happ⟩
        · have hne : key ≠ hashOperation op det := fun hk => h2 (hk ▸ hden)
          cases ans with
          | response s =>
            by_cases h3 : s = "y" ∨ s = "yes"
            · simp only [promptApproval, if_neg h1, if_neg h2, if_pos h3]
              exact ⟨hden, happ⟩
            · by_cases h4 : s = "a" ∨ s = "always"
              · rw [promptApproval_always_state st op det s h1 h2 h4]
                refine ⟨hden, ?_⟩
                intro hk
                rcases List.mem_append.mp hk with hk | hk
                · exact happ hk
                · exact hne (List.mem_singleton.mp hk)
              · rw [promptApproval_denial_state st op det s h1 h2 h3 h4]
                exact ⟨List.mem_append_left _ hden, happ⟩
          | interrupted =>
            simp only [promptApproval, if_neg h1, if_neg h2]
            exact ⟨hden, happ⟩
    rw [runApprovals_cons] at he
    rcases List.mem_cons.mp he with rfl | he
    · have h2' : hashOperation op det ∈ st.deniedOperations := by
        simpa [hhash] using hden
      have h1' : hashOperation op det ∉ st.approvedOperations := by
        simpa [hhash] using happ
      rw [promptApproval_hit_denied st op det ans h1' h2']
      exact ⟨rfl, rfl⟩
    · exact ih (promptApproval st op det ans).state hpres.1 hpres.2 e he hhash

/-! ## Retry-loop lemmas -/

/-- Every attempt index recorded in `reflectedAt` by the retry loop was
either already recorded, or lies in the window of attempts the loop ran
and corresponds to a reflection-worthy non-exception result with a
non-empty reflection. -/
theorem retryGo_reflectedAt (sr : String → Bool) (refl : String → String)
    (fn : String) (outcomes : Nat → ExecOutcome) :
    ∀ (remaining attempt : Nat) (lastError : Option String)
      (msgs : List String) (refls : List Nat),
      ∀ i ∈ (retryGo sr refl fn outcomes remaining attempt
          lastError msgs refls).reflectedAt,
        i ∈ refls ∨ (attempt ≤ i ∧ i < attempt + remaining ∧
          ∃ r, outcomes i = .ok r ∧ sr r = true ∧ refl r ≠ "") := by
  intro remaining
  induction remaining with
  | zero =>
    intro attempt lastError msgs refls i hi
    left
    cases lastError with
    | none => exact hi
    | some e =>
      by_cases he : e = ""
      · simpa [retryGo, he] using hi
      · simpa [retryGo, he] using hi
  | succ rem ih =>
    intro attempt lastError msgs refls i hi
    cases houtcome : outcomes attempt with
    | ok result =>
      by_cases hsr : sr result = true
      · by_cases hrefl : refl result = ""
        · simp only [retryGo, houtcome, hsr, hrefl, ne_eq, eq_self_iff_true,
            not_true, not_false_eq_true, ite_true, ite_false] at hi
          rcases ih (attempt + 1) (some result) msgs refls i hi with
            hmem | ⟨hle, hlt, hw⟩
          · exact Or.inl hmem
          · exact Or.inr ⟨by omega, by omega, hw⟩
        · simp only [retryGo, houtcome, hsr, hrefl, ne_eq, eq_self_iff_true,
            not_true, not_false_eq_true, ite_true, ite_false] at hi
          rcases ih (attempt + 1) (some result)
              (msgs ++ ["[Reflecting on " ++ fn ++ " error]\n" ++ refl result])
              (refls ++ [attempt]) i hi with hmem | ⟨hle, hlt, hw⟩
          · rcases List.mem_append.mp hmem with hmem | hmem
            · exact Or.inl hmem
            · rcases List.mem_singleton.mp hmem with rfl
              exact Or.inr ⟨Nat.le_refl _, by omega,
                result, houtcome, hsr, hrefl⟩
          · exact Or.inr ⟨by omega, by omega, hw⟩
      · simp only [retryGo, houtcome, hsr] at hi
        exact Or.inl hi
    | exc e =>
      simp only [retryGo, houtcome] at hi
      rcases ih (attempt + 1) (some e) msgs refls i hi with hmem | ⟨hle, hlt, hw⟩
      · exact Or.inl hmem
      · exact Or.inr ⟨by omega, by omega, hw⟩

/-! ## Agent-loop lemmas -/

theorem recordIteration_current (ev : AgentEvaluator) (cur : TaskExecution)
    (h : ev.currentExecution = some cur) :
    recordIteration ev =
      { ev with currentExecution := some ({ cur with iterations := cur.iterations + 1 }) } := by
  simp [recordIteration, h]

/-- Running the loop when every remaining iteration yields tool calls:
each iteration is recorded, the budget is exhausted, and the task is
finalized as a failure with the max-iterations message. -/
theorem agentLoopGo_all_toolCalls (steps : Nat → ModelStep) (endTime : ℚ) :
    ∀ (remaining i : Nat) (ev : AgentEvaluator) (cur : TaskExecution),
      ev.currentExecution = some cur →
      (∀ j, i ≤ j → j < i + remaining → steps j = .toolCalls) →
      agentLoopGo steps endTime remaining i ev =
        ("Warning: Reached max iterations (" ++ toString MAX_ITERATIONS ++ ")",
         { currentExecution := none
           executionsHistory := ev.executionsHistory ++ [finalizedMaxIter cur remaining endTime] }) := by
  intro remaining
  induction remaining with
  | zero =>
    intro i ev cur hcur _
    simp [agentLoopGo, endTask, hcur, finalizedMaxIter]
  | succ rem ih =>
    intro i ev cur hcur hsteps
    have hstep : steps i = .toolCalls := hsteps i (Nat.le_refl _) (by omega)
    have hrec := recordIteration_current ev cur hcur
    simp only [agentLoopGo, hstep, hrec]
    have hrest := ih (i + 1)
      ({ ev with currentExecution := some ({ cur with iterations := cur.iterations + 1 }) })
      ({ cur with iterations := cur.iterations + 1 }) rfl
      (fun j h1 h2 => hsteps j (by omega) (by omega))
    have hfin : finalizedMaxIter ({ cur with iterations := cur.iterations + 1 }) rem endTime =
        finalizedMaxIter cur (rem + 1) endTime := by
      simp only [finalizedMaxIter]
      rw [Nat.add_assoc, Nat.add_comm 1 rem]
    rw [hfin] at hrest
    exact hrest

/-- Appending a failed execution to the history leaves the successful-task
count unchanged and increments the failed-task count. -/
theorem summarize_append_failed (history : List TaskExecution)
    (fin : TaskExecution) (h : fin.success = false) :
    (summarize (history ++ [fin])).successfulTasks =
      (summarize history).successfulTasks ∧
    (summarize (history ++ [fin])).failedTasks =
      (summarize history).failedTasks + 1 := by
  have hfilter : (history ++ [fin]).filter (fun e => e.success) =
      history.filter (fun e => e.success) := by
    rw [List.filter_append]
    simp [h]
  constructor
  · simp [summarize, hfilter]
  · have hle : (history.filter (fun e => e.success)).length ≤ history.length :=
      List.length_filter_le _ _
    simp only [summarize, hfilter, List.length_append, List.length_singleton]
    omega

/-! ## Claims -/

/-- C5: when no iteration among the first 50 produces a terminal
(tool-call-free) response, `execute` returns the warning string naming the
iteration bound instead of raising, the current task is finalized with
`success = false` and error message `"Max iterations reached"` (having
recorded 50 iterations), and the recomputed summary counts it as a failed,
not a successful, task. -/
theorem execute_max_iterations (steps : Nat → ModelStep) (endTime : ℚ)
    (ev : AgentEvaluator) (cur : TaskExecution)
    (hcur : ev.currentExecution = some cur)
    (hsteps : ∀ j, j < MAX_ITERATIONS → steps j = .toolCalls) :
    executeAgent steps endTime ev =
      ("Warning: Reached max iterations (50)",
       { currentExecution := none
         executionsHistory := ev.executionsHistory ++ [finalizedMaxIter cur 50 endTime] }) ∧
    (summarize (executeAgent steps endTime ev).2.executionsHistory).successfulTasks =
      (summarize ev.executionsHistory).successfulTasks ∧
    (summarize (executeAgent steps endTime ev).2.executionsHistory).failedTasks =
      (summarize ev.executionsHistory).failedTasks + 1 := by
  have hmain := agentLoopGo_all_toolCalls steps endTime MAX_ITERATIONS 0 ev cur
    hcur (fun j _ h2 => hsteps j (by simpa using h2))
  have hstr : "Warning: Reached max iterations (" ++ toString MAX_ITERATIONS ++ ")" =
      "Warning: Reached max iterations (50)" := rfl
  rw [hstr] at hmain
  refine ⟨hmain, ?_, ?_⟩
  · rw [show executeAgent steps endTime ev =
      agentLoopGo steps endTime MAX_ITERATIONS 0 ev from rfl, hmain]
    exact (summarize_append_failed ev.executionsHistory _ rfl).1
  · rw [show executeAgent steps endTime ev =
      agentLoopGo steps endTime MAX_ITERATIONS 0 ev from rfl, hmain]
    exact (summarize_append_failed ev.executionsHistory _ rfl).2

/-- Concrete instance of `execute_max_iterations`: a run whose model
responses always carry tool calls. -/
theorem execute_max_iterations_witness :
    executeAgent (fun _ => ModelStep.toolCalls) 7
      ⟨some ⟨"t", "p", 0, none, false, 0, 0, 0, 0, [], none, none⟩, []⟩ =
      ("Warning: Reached max iterations (50)",
       ⟨none, [⟨"t", "p", 0, some 7, false, 50, 0, 0, 0, [],
          some "Max iterations reached", none⟩]⟩) := by
  have h := execute_max_iterations (fun _ => ModelStep.toolCalls) 7
    ⟨some ⟨"t", "p", 0, none, false, 0, 0, 0, 0, [], none, none⟩, []⟩
    ⟨"t", "p", 0, none, false, 0, 0, 0, 0, [], none, none⟩ rfl (fun j _ => rfl)
  exact h.1

/-- C4 (counterexample): for a tool with `max_retries = 1` (the default), a
reflection-worthy failure on the final (and only) attempt still appends a
reflection message to the conversation before the executor returns — the
append is not guarded by `attempt < max_retries - 1`, only the backoff
sleep is. -/
theorem retry_reflects_after_final_attempt :
    (executeToolWithRetry (fun s => s == "error") (fun _ => "try again")
      "Grep" (fun _ => ExecOutcome.ok "error")).reflectedAt = [0] ∧
    (retryConfigFor "Grep").1 = 1 ∧
    ¬ ((0 : Nat) < (retryConfigFor "Grep").1 - 1) ∧
    (executeToolWithRetry (fun s => s == "error") (fun _ => "try again")
      "Grep" (fun _ => ExecOutcome.ok "error")).appendedMessages =
      ["[Reflecting on Grep error]\ntry again"] := by
  decide

/-- C4 (amended): the retry executor appends a reflection message to the
conversation only from inside the attempt loop, in reaction to a
reflection-worthy non-exception result with a non-empty reflection — this
includes the final attempt; it never appends after the loop has
finished. -/
theorem retry_reflection_only_during_attempts (shouldReflect : String → Bool)
    (reflect : String → String) (functionName : String)
    (outcomes : Nat → ExecOutcome) :
    ∀ i ∈ (executeToolWithRetry shouldReflect reflect functionName
        outcomes).reflectedAt,
      i < (retryConfigFor functionName).1 ∧
      ∃ r, outcomes i = .ok r ∧ shouldReflect r = true ∧ reflect r ≠ "" := by
  intro i hi
  rcases retryGo_reflectedAt shouldReflect reflect functionName outcomes
      (retryConfigFor functionName).1 0 none [] [] i hi with hmem | ⟨_, hlt, hw⟩
  · simp at hmem
  · exact ⟨by omega, hw⟩

/-- Concrete instance of `retry_reflection_only_during_attempts` at the
single-attempt scenario. -/
theorem retry_reflection_only_during_attempts_witness :
    (0 : Nat) < (retryConfigFor "Grep").1 ∧
    ∃ r, (fun _ => ExecOutcome.ok "error") (0 : Nat) = ExecOutcome.ok r ∧
      (fun s => s == "error") r = true ∧ (fun _ => "try again") r ≠ "" :=
  retry_reflection_only_during_attempts (fun s => s == "error")
    (fun _ => "try again") "Grep" (fun _ => ExecOutcome.ok "error") 0 (by decide)

/-- C1: for every permission rule category and every target string, a
target matching any deny pattern yields `Deny` (even if an allow pattern
also matches, since deny rules are checked first); otherwise a target
matching any allow pattern yields `Allow`; otherwise the category's
configured default is returned. -/
theorem checkPermission_deny_precedence (target : String) (rules : Rules) :
    ((∃ p ∈ rules.deny, fnmatch target p = true) →
      checkPermission target rules = PermissionLevel.deny) ∧
    ((∀ p ∈ rules.deny, fnmatch target p = false) →
      (∃ p ∈ rules.allow, fnmatch target p = true) →
      checkPermission target rules = PermissionLevel.allow) ∧
    ((∀ p ∈ rules.deny, fnmatch target p = false) →
      (∀ p ∈ rules.allow, fnmatch target p = false) →
      ∀ d, rules.defaultLevel = some d → checkPermission target rules = d) := by
  refine ⟨?_, ?_, ?_⟩
  · intro h
    obtain ⟨q, hq⟩ := Option.isSome_iff_exists.mp (List.find?_isSome.mpr h)
    simp [checkPermission, hq]
  · intro hd ha
    have h1 : rules.deny.find? (fun pat => fnmatch target pat) = none :=
      List.find?_eq_none.mpr (fun x hx => by simp [hd x hx])
    obtain ⟨q, hq⟩ := Option.isSome_iff_exists.mp (List.find?_isSome.mpr ha)
    simp [checkPermission, h1, hq]
  · intro hd ha d hdef
    have h1 : rules.deny.find? (fun pat => fnmatch target pat) = none :=
      List.find?_eq_none.mpr (fun x hx => by simp [hd x hx])
    have h2 : rules.allow.find? (fun pat => fnmatch target pat) = none :=
      List.find?_eq_none.mpr (fun x hx => by simp [ha x hx])
    simp [checkPermission, h1, h2, hdef]

/-- C2 (counterexample): the operator can be prompted twice for the same
`(operation, details)` pair in one process lifetime — answering `"y"`
(approve once) does not populate the approval cache, so an identical later
request prompts again. -/
theorem approvalCache_reprompts_after_yes :
    (runApprovals initialCriticalOperation
      [("op", "det", PromptOutcome.response "y"),
       ("op", "det", PromptOutcome.response "y")]).1.map
      (fun e => (e.operation, e.details, e.prompted, e.approved)) =
    [("op", "det", true, true), ("op", "det", true, true)] := by
  decide

/-- C2 (amended): the approval cache guarantees at most one prompt per
distinct `(operation, details)` pair only when the pair's first prompt is
answered `"a"`/`"always"` or with a denial: after any reply other than
`"y"`/`"yes"`, every later request in the run that hashes to the same key
is answered from the cache without prompting.  (A `"y"`/`"yes"` reply or an
interrupted prompt leaves the cache unchanged, so such a pair may prompt
again.) -/
theorem approvalCache_no_reprompt_after_caching_reply
    (st : CriticalOperation) (op det s : String)
    (rest : List (String × String × PromptOutcome))
    (hy : s ≠ "y") (hyes : s ≠ "yes") :
    ∀ e ∈ (runApprovals (promptApproval st op det (.response s)).state rest).1,
      hashOperation e.operation e.details = hashOperation op det →
      e.prompted = false := by
  intro e he hhash
  by_cases h1 : hashOperation op det ∈ st.approvedOperations
  · exact (runApprovals_approved_replay _ rest _
      (promptApproval_mem_approved st op det (.response s) h1) e he hhash).1
  · by_cases h2 : hashOperation op det ∈ st.deniedOperations
    · rw [promptApproval_hit_denied st op det (.response s) h1 h2] at he
      exact (runApprovals_denied_replay _ rest st h2 h1 e he hhash).1
    · by_cases h4 : s = "a" ∨ s = "always"
      · rw [promptApproval_always_state st op det s h1 h2 h4] at he
        exact (runApprovals_approved_replay _ rest _
          (List.mem_append_right _ (List.mem_singleton_self _)) e he hhash).1
      · have hy' : ¬ (s = "y" ∨ s = "yes") := by
          rintro (rfl | rfl)
          · exact hy rfl
          · exact hyes rfl
        rw [promptApproval_denial_state st op det s h1 h2 hy' h4] at he
        exact (runApprovals_denied_replay _ rest
          ({ st with deniedOperations :=
              st.deniedOperations ++ [hashOperation op det] })
          (List.mem_append_right _ (List.mem_singleton_self _)) h1 e he hhash).1

/-- Concrete instance of `approvalCache_no_reprompt_after_caching_reply`:
after a `"n"` denial for `("op", "det")`, the identical follow-up request
is answered silently. -/
theorem approvalCache_no_reprompt_after_caching_reply_witness :
    ApprovalTraceEntry.prompted
      ((runApprovals (promptApproval initialCriticalOperation "op" "det"
          (PromptOutcome.response "n")).state
        [("op", "det", PromptOutcome.response "y")]).1.headD
        ⟨"", "", true, true⟩) = false :=
  approvalCache_no_reprompt_after_caching_reply initialCriticalOperation
    "op" "det" "n" [("op", "det", PromptOutcome.response "y")]
    (by decide) (by decide)
    ((runApprovals (promptApproval initialCriticalOperation "op" "det"
        (PromptOutcome.response "n")).state
      [("op", "det", PromptOutcome.response "y")]).1.headD ⟨"", "", true, true⟩)
    (by decide) (by decide)

/-- C3: once the operator answers `"a"`/`"always"` to an actual prompt for
a pair, every later request in the run for the identical pair is approved
without prompting; once the operator answers an actual prompt with a
denial (anything other than `"y"`/`"yes"`/`"a"`/`"always"`), every later
request for the identical pair returns `false` without prompting. -/
theorem approvalCache_always_and_denial_persist
    (st : CriticalOperation) (op det : String)
    (rest : List (String × String × PromptOutcome)) :
    (∀ s, (s = "a" ∨ s = "always") →
      (promptApproval st op det (.response s)).prompted = true →
      ∀ e ∈ (runApprovals (promptApproval st op det (.response s)).state rest).1,
        e.operation = op → e.details = det →
        e.prompted = false ∧ e.approved = true) ∧
    (∀ s, ¬ (s = "y" ∨ s = "yes") → ¬ (s = "a" ∨ s = "always") →
      (promptApproval st op det (.response s)).prompted = true →
      ∀ e ∈ (runApprovals (promptApproval st op det (.response s)).state rest).1,
        e.operation = op → e.details = det →
        e.prompted = false ∧ e.approved = false) := by
  constructor
  · intro s hs hp e he hop hdet
    have h1 : hashOperation op det ∉ st.approvedOperations := by
      intro h
      rw [promptApproval_hit_approved st op det _ h] at hp
      simp at hp
    have h2 : hashOperation op det ∉ st.deniedOperations := by
      intro h
      rw [promptApproval_hit_denied st op det _ h1 h] at hp
      simp at hp
    rw [promptApproval_always_state st op det s h1 h2 hs] at he
    refine runApprovals_approved_replay (hashOperation op det) rest _
      (List.mem_append_right _ (List.mem_singleton_self _)) e he ?_
    rw [hop, hdet]
  · intro s hy ha hp e he hop hdet
    have h1 : hashOperation op det ∉ st.approvedOperations := by
      intro h
      rw [promptApproval_hit_approved st op det _ h] at hp
      simp at hp
    have h2 : hashOperation op det ∉ st.deniedOperations := by
      intro h
      rw [promptApproval_hit_denied st op det _ h1 h] at hp
      simp at hp
    rw [promptApproval_denial_state st op det s h1 h2 hy ha] at he
    refine runApprovals_denied_replay (hashOperation op det) rest
      ({ st with deniedOperations :=
          st.deniedOperations ++ [hashOperation op det] })
      (List.mem_append_right _ (List.mem_singleton_self _)) h1 e he ?_
    rw [hop, hdet]

/-- Concrete instance of `approvalCache_always_and_denial_persist`: after
an `"a"` answer for `("rm", "x")`, the identical follow-up request is
silently approved. -/
theorem approvalCache_always_and_denial_persist_witness :
    (fun e => (e.prompted, e.approved))
      ((runApprovals (promptApproval initialCriticalOperation "rm" "x"
          (PromptOutcome.response "a")).state
        [("rm", "x", PromptOutcome.response "n")]).1.headD
        ⟨"", "", false, true⟩) = (false, true) := by
  have h := (approvalCache_always_and_denial_persist initialCriticalOperation
    "rm" "x" [("rm", "x", PromptOutcome.response "n")]).1 "a" (Or.inl rfl)
    (by decide)
    ((runApprovals (promptApproval initialCriticalOperation "rm" "x"
        (PromptOutcome.response "a")).state
      [("rm", "x", PromptOutcome.response "n")]).1.headD ⟨"", "", false, true⟩)
    (by decide) (by decide) (by decide)
  simpa using And.intro h.1 h.2

/-- C10: the approval cache is keyed by `(operation ++ ":" ++ details)`
truncated to 100 characters, so two distinct `(operation, details)` pairs
can share a key; a cached "always" decision for the first is then silently
applied to the second without prompting, even though the operator would
have denied it. -/
theorem hashOperation_truncation_collision :
    ("bash", String.mk (List.replicate 95 'a')) ≠
      ("bash", String.mk (List.replicate 95 'a') ++ "b") ∧
    hashOperation "bash" (String.mk (List.replicate 95 'a')) =
      hashOperation "bash" (String.mk (List.replicate 95 'a') ++ "b") ∧
    (runApprovals initialCriticalOperation
      [("bash", String.mk (List.replicate 95 'a'), PromptOutcome.response "a"),
       ("bash", String.mk (List.replicate 95 'a') ++ "b",
        PromptOutcome.response "n")]).1.map
      (fun e => (e.approved, e.prompted)) = [(true, true), (true, false)] := by
  decide

/-- Concrete instances of the three branches of
`checkPermission_deny_precedence` on the standard profile. -/
theorem checkPermission_deny_precedence_witness :
    checkPermission "sudo ls" standardProfile.bash = PermissionLevel.deny ∧
    checkPermission "docs/a.md" standardProfile.filesWrite = PermissionLevel.allow ∧
    checkPermission "ls" standardProfile.bash = PermissionLevel.ask :=
  ⟨(checkPermission_deny_precedence "sudo ls" standardProfile.bash).1
      ⟨"sudo *", by decide, by decide⟩,
   (checkPermission_deny_precedence "docs/a.md" standardProfile.filesWrite).2.1
      (by decide) ⟨"*.md", by decide, by decide⟩,
   (checkPermission_deny_precedence "ls" standardProfile.bash).2.2
      (by decide) (by decide) PermissionLevel.ask rfl⟩

/-! ## Tool-tracker lemmas -/

theorem recordStep_total (st : ToolStats) (s : Bool) (err : Option String)
    (now : String) : (recordStep st s err now).total = st.total + 1 := by
  cases s with
  | true => rfl
  | false =>
    cases err with
    | none => rfl
    | some e => by_cases he : e = "" <;> simp [recordStep, he]

theorem recordStep_successful (st : ToolStats) (s : Bool) (err : Option String)
    (now : String) :
    (recordStep st s err now).successful =
      (if s then st.successful + 1 else st.successful) := by
  cases s with
  | true => rfl
  | false =>
    cases err with
    | none => rfl
    | some e => by_cases he : e = "" <;> simp [recordStep, he]

theorem recordStep_failed (st : ToolStats) (s : Bool) (err : Option String)
    (now : String) :
    (recordStep st s err now).failed =
      (if s then st.failed else st.failed + 1) := by
  cases s with
  | true => rfl
  | false =>
    cases err with
    | none => rfl
    | some e => by_cases he : e = "" <;> simp [recordStep, he]

/-- `record_execution` always recomputes `success_rate` as
`successful / total` of the updated record. -/
theorem recordStep_rate (st : ToolStats) (s : Bool) (err : Option String)
    (now : String) :
    (recordStep st s err now).successRate =
      ((recordStep st s err now).successful : ℚ) /
        ((recordStep st s err now).total : ℚ) := by
  cases s with
  | true => rfl
  | false =>
    cases err with
    | none => rfl
    | some e => by_cases he : e = "" <;> simp [recordStep, he]

/-- Recording against a one-entry table for the same tool just folds
`recordStep` over the events. -/
theorem applyEvents_single (t : String) :
    ∀ (events : List (Bool × Option String × String)) (st : ToolStats),
      applyEvents [(t, st)] t events =
        [(t, events.foldl (fun acc e => recordStep acc e.1 e.2.1 e.2.2) st)] := by
  intro events
  induction events with
  | nil => intro st; rfl
  | cons e rest ih =>
    intro st
    have hrec : recordExecution [(t, st)] t e.1 e.2.1 e.2.2 =
        [(t, recordStep st e.1 e.2.1 e.2.2)] := by
      simp [recordExecution, updateStats]
    show applyEvents (recordExecution [(t, st)] t e.1 e.2.1 e.2.2) t rest = _
    rw [hrec, ih]
    rfl

/-- From an empty table, a non-empty event sequence for `t` produces
exactly one entry, holding the fold of `recordStep` from the zeroed
record. -/
theorem applyEvents_from_empty (t : String)
    (e : Bool × Option String × String)
    (rest : List (Bool × Option String × String)) :
    applyEvents [] t (e :: rest) =
      [(t, (e :: rest).foldl
          (fun acc ev => recordStep acc ev.1 ev.2.1 ev.2.2) freshToolStats)] := by
  have hfirst : recordExecution [] t e.1 e.2.1 e.2.2 =
      [(t, recordStep freshToolStats e.1 e.2.1 e.2.2)] := by
    simp [recordExecution, updateStats]
  show applyEvents (recordExecution [] t e.1 e.2.1 e.2.2) t rest = _
  rw [hfirst, applyEvents_single]
  rfl

theorem length_filter_bool (events : List (Bool × Option String × String)) :
    (events.filter (fun e => e.1)).length +
      (events.filter (fun e => !e.1)).length = events.length := by
  induction events with
  | nil => rfl
  | cons e rest ih =>
    cases he : e.1 <;> simp [List.filter_cons, he] <;> omega

/-- Counting invariant of the `recordStep` fold. -/
theorem foldl_recordStep_counts
    (events : List (Bool × Option String × String)) :
    ∀ st : ToolStats,
      ((events.foldl (fun acc e => recordStep acc e.1 e.2.1 e.2.2) st).total =
        st.total + events.length) ∧
      ((events.foldl (fun acc e => recordStep acc e.1 e.2.1 e.2.2) st).successful =
        st.successful + (events.filter (fun e => e.1)).length) ∧
      ((events.foldl (fun acc e => recordStep acc e.1 e.2.1 e.2.2) st).failed =
        st.failed + (events.filter (fun e => !e.1)).length) := by
  induction events with
  | nil => intro st; simp
  | cons e rest ih =>
    intro st
    have h := ih (recordStep st e.1 e.2.1 e.2.2)
    refine ⟨?_, ?_, ?_⟩
    · rw [List.foldl_cons, h.1, recordStep_total]
      simp [Nat.add_assoc, Nat.add_comm 1 rest.length]
    · rw [List.foldl_cons, h.2.1, recordStep_successful]
      cases hb : e.1 <;> (simp [List.filter_cons, hb]; try omega)
    · rw [List.foldl_cons, h.2.2, recordStep_failed]
      cases hb : e.1 <;> (simp [List.filter_cons, hb]; try omega)

/-- The recomputed rate of a non-empty `recordStep` fold. -/
theorem foldl_recordStep_rate (e : Bool × Option String × String)
    (rest : List (Bool × Option String × String)) :
    ∀ st : ToolStats,
      (((e :: rest).foldl (fun acc ev => recordStep acc ev.1 ev.2.1 ev.2.2) st).successRate =
        ((((e :: rest).foldl (fun acc ev => recordStep acc ev.1 ev.2.1 ev.2.2) st).successful : ℚ)) /
          ((((e :: rest).foldl (fun acc ev => recordStep acc ev.1 ev.2.1 ev.2.2) st).total : ℚ))) := by
  induction rest generalizing e with
  | nil => intro st; rw [List.foldl_cons, List.foldl_nil]; exact recordStep_rate st e.1 e.2.1 e.2.2
  | cons e2 rest2 ih =>
    intro st
    rw [List.foldl_cons]
    exact ih e2 (recordStep st e.1 e.2.1 e.2.2)

theorem ranking_singleton (t : String) (st : ToolStats) :
    getReliabilityRanking [(t, st)] =
      (if 3 ≤ st.total then [RankEntry.mk t st.successRate st.total st.successful]
       else []) := by
  by_cases h : 3 ≤ st.total <;>
    simp [getReliabilityRanking, h, List.insertionSort]

/-- `get_reliability_ranking` output is always sorted by success rate
descending. -/
theorem ranking_sorted (stats : ToolStatsTable) :
    List.Sorted (fun a b : RankEntry => b.successRate ≤ a.successRate)
      (getReliabilityRanking stats) := by
  haveI hTot : IsTotal RankEntry (fun a b => b.successRate ≤ a.successRate) :=
    ⟨fun a b => le_total b.successRate a.successRate⟩
  haveI hTrans : IsTrans RankEntry (fun a b => b.successRate ≤ a.successRate) :=
    ⟨fun _ _ _ hab hbc => le_trans hbc hab⟩
  exact List.sorted_insertionSort _ _

/-- C6: after recording `n` successes and `m` failures for a tool
(`n + m > 0`, starting from an empty store), the stored counters are
`successful = n`, `failed = m`, `total = n + m`, and
`success_rate = n / (n + m)`; the reliability ranking omits the tool when
`total < 3` and lists it when `total ≥ 3`, and the ranking is always
sorted by success rate descending. -/
theorem toolTracker_success_rate_and_ranking
    (events : List (Bool × Option String × String)) (t : String)
    (h : events ≠ []) :
    (lookupStats (applyEvents [] t events) t).isSome = true ∧
    ((lookupStats (applyEvents [] t events) t).getD freshToolStats).successful =
      (events.filter (fun e => e.1)).length ∧
    ((lookupStats (applyEvents [] t events) t).getD freshToolStats).failed =
      (events.filter (fun e => !e.1)).length ∧
    ((lookupStats (applyEvents [] t events) t).getD freshToolStats).total =
      (events.filter (fun e => e.1)).length +
        (events.filter (fun e => !e.1)).length ∧
    ((lookupStats (applyEvents [] t events) t).getD freshToolStats).successRate =
      ((events.filter (fun e => e.1)).length : ℚ) /
        (((events.filter (fun e => e.1)).length +
          (events.filter (fun e => !e.1)).length : Nat) : ℚ) ∧
    (((lookupStats (applyEvents [] t events) t).getD freshToolStats).total < 3 →
      getReliabilityRanking (applyEvents [] t events) = []) ∧
    (3 ≤ ((lookupStats (applyEvents [] t events) t).getD freshToolStats).total →
      (getReliabilityRanking (applyEvents [] t events)).map (fun e => e.tool) = [t]) ∧
    List.Sorted (fun a b : RankEntry => b.successRate ≤ a.successRate)
      (getReliabilityRanking (applyEvents [] t events)) := by
  cases events with
  | nil => exact absurd rfl h
  | cons e rest =>
    rw [applyEvents_from_empty]
    have hcounts := foldl_recordStep_counts (e :: rest) freshToolStats
    have hrate := foldl_recordStep_rate e rest freshToolStats
    have hlen := length_filter_bool (e :: rest)
    set stF := (e :: rest).foldl
      (fun acc ev => recordStep acc ev.1 ev.2.1 ev.2.2) freshToolStats with hstF
    have hlook : lookupStats [(t, stF)] t = some stF := by simp [lookupStats]
    have hsucc : stF.successful = ((e :: rest).filter (fun ev => ev.1)).length := by
      rw [hcounts.2.1]
      simp [freshToolStats]
    have hfail : stF.failed = ((e :: rest).filter (fun ev => !ev.1)).length := by
      rw [hcounts.2.2]
      simp [freshToolStats]
    have htot : stF.total = (e :: rest).length := by
      rw [hcounts.1]
      simp [freshToolStats]
    refine ⟨by simp [hlook], ?_, ?_, ?_, ?_, ?_, ?_, ranking_sorted _⟩
    · rw [hlook]
      exact hsucc
    · rw [hlook]
      exact hfail
    · rw [hlook]
      simp only [Option.getD_some]
      rw [htot, ← hlen]
    · rw [hlook]
      simp only [Option.getD_some]
      rw [hrate, hsucc, htot, ← hlen]
    · rw [hlook]
      simp only [Option.getD_some]
      intro hlt
      rw [ranking_singleton, if_neg (by omega)]
    · rw [hlook]
      simp only [Option.getD_some]
      intro hge
      rw [ranking_singleton, if_pos hge]
      rfl

/-- Concrete instance of `toolTracker_success_rate_and_ranking`: two
successes and one failure leave `success_rate = 2/3` and the tool ranked. -/
theorem toolTracker_success_rate_and_ranking_witness :
    ((lookupStats (applyEvents [] "Bash"
        [(true, none, "t1"), (false, some "E: x", "t2"), (true, none, "t3")])
      "Bash").getD freshToolStats).total = 3 ∧
    (getReliabilityRanking (applyEvents [] "Bash"
        [(true, none, "t1"), (false, some "E: x", "t2"),
         (true, none, "t3")])).map (fun e => e.tool) = ["Bash"] := by
  have h := toolTracker_success_rate_and_ranking
    [(true, none, "t1"), (false, some "E: x", "t2"), (true, none, "t3")]
    "Bash" (by decide)
  refine ⟨?_, h.2.2.2.2.2.2.1 (by decide)⟩
  rw [h.2.2.2.1]
  decide

/-- C7: a solution is stored only on `success=True` — a `success=False`
call leaves the store unchanged (and cannot raise), while a successful
call appends exactly the new record when `_extract_tools` succeeds and
stores nothing when it raises; and `find_similar_solutions` returns only
stored entries whose token-overlap similarity to the query is at least
the threshold, ordered by similarity descending. -/
theorem semanticMemory_store_and_find (mem : List Solution) (d : String)
    (path : List String) (ts : String) (sols : List Solution) (q : String)
    (t : ℚ) (lim : Nat) :
    storeSolution mem d path false ts = some mem ∧
    storeSolution mem d path true ts =
      (extractTools path).map (fun tools => mem ++ [⟨d, path, ts, tools⟩]) ∧
    (∀ x ∈ findSimilarSolutions sols q t lim,
      x ∈ sols ∧ t ≤ tokenOverlap q x.task) ∧
    List.Pairwise (fun a b => tokenOverlap q b.task ≤ tokenOverlap q a.task)
      (findSimilarSolutions sols q t lim) := by
  refine ⟨rfl, ?_, ?_, ?_⟩
  · cases hext : extractTools path with
    | none => simp [storeSolution, hext]
    | some tools => simp [storeSolution, hext]
  · intro x hx
    simp only [findSimilarSolutions] at hx
    by_cases hnil : sols = []
    · rw [if_pos hnil] at hx
      exact absurd hx (List.not_mem_nil x)
    · rw [if_neg hnil] at hx
      obtain ⟨p, hp, rfl⟩ := List.mem_map.mp hx
      have hp1 : p ∈ List.insertionSort (fun a b => b.2 ≤ a.2)
          (sols.filterMap (fun sol =>
            if t ≤ tokenOverlap q sol.task then
              some (sol, tokenOverlap q sol.task) else none)) :=
        (List.take_sublist lim _).subset hp
      have hp2 := (List.perm_insertionSort
        (fun a b : Solution × ℚ => b.2 ≤ a.2) _).subset hp1
      obtain ⟨sol, hsol, hsome⟩ := List.mem_filterMap.mp hp2
      by_cases ht : t ≤ tokenOverlap q sol.task
      · rw [if_pos ht] at hsome
        cases Option.some.inj hsome
        exact ⟨hsol, ht⟩
      · rw [if_neg ht] at hsome
        exact absurd hsome (Option.noConfusion)
  · simp only [findSimilarSolutions]
    by_cases hnil : sols = []
    · rw [if_pos hnil]
      exact List.Pairwise.nil
    · rw [if_neg hnil]
      haveI hTot : IsTotal (Solution × ℚ) (fun a b => b.2 ≤ a.2) :=
        ⟨fun a b => le_total b.2 a.2⟩
      haveI hTrans : IsTrans (Solution × ℚ) (fun a b => b.2 ≤ a.2) :=
        ⟨fun _ _ _ hab hbc => le_trans hbc hab⟩
      have hsorted : List.Sorted (fun a b : Solution × ℚ => b.2 ≤ a.2)
          (List.insertionSort (fun a b => b.2 ≤ a.2)
            (sols.filterMap (fun sol =>
              if t ≤ tokenOverlap q sol.task then
                some (sol, tokenOverlap q sol.task) else none))) :=
        List.sorted_insertionSort _ _
      have htake := List.Pairwise.sublist (List.take_sublist lim _) hsorted
      have hinv : ∀ p ∈ (List.insertionSort (fun a b : Solution × ℚ => b.2 ≤ a.2)
          (sols.filterMap (fun sol =>
            if t ≤ tokenOverlap q sol.task then
              some (sol, tokenOverlap q sol.task) else none))).take lim,
          p.2 = tokenOverlap q p.1.task := by
        intro p hp
        have hp2 := (List.perm_insertionSort
          (fun a b : Solution × ℚ => b.2 ≤ a.2) _).subset
          ((List.take_sublist lim _).subset hp)
        obtain ⟨sol, _, hsome⟩ := List.mem_filterMap.mp hp2
        by_cases ht : t ≤ tokenOverlap q sol.task
        · rw [if_pos ht] at hsome
          cases Option.some.inj hsome
          rfl
        · rw [if_neg ht] at hsome
          exact absurd hsome (Option.noConfusion)
      rw [List.pairwise_map]
      refine htake.imp_of_mem ?_
      intro a b ha hb hab
      rw [← hinv a ha, ← hinv b hb]
      exact hab

/-- Concrete instance of `semanticMemory_store_and_find`: the store-gate
and the threshold filter at a concrete memory. -/
theorem semanticMemory_store_and_find_witness :
    storeSolution [⟨"a", [], "t", ∅⟩] "q" [] false "ts" =
      some [⟨"a", [], "t", ∅⟩] ∧
    ((⟨"a", [], "t", ∅⟩ : Solution) ∈ [(⟨"a", [], "t", ∅⟩ : Solution)] ∧
      (0 : ℚ) ≤ tokenOverlap "" (Solution.task ⟨"a", [], "t", ∅⟩)) := by
  have h := semanticMemory_store_and_find [⟨"a", [], "t", ∅⟩] "q" [] "ts"
    [⟨"a", [], "t", ∅⟩] "" 0 3
  exact ⟨h.1, h.2.2.1 ⟨"a", [], "t", ∅⟩ (by decide)⟩

/-- C8: from an empty history, ending one task with `success=True` and 100
recorded tokens and a second with `success=False` and 50 recorded tokens
yields a summary with `total_tasks = 2`, `success_rate = 0.5`, and
`total_tokens_used = 150`. -/
theorem evaluator_two_task_summary (p1 p2 : String) (m1 m2 : Option String)
    (t1 t2 t3 t4 : ℚ) (err : Option String) :
    (summarize (endTask (recordTokens (startTask (endTask (recordTokens
        (startTask initialEvaluator p1 m1 t1) 100 0 0) true none t2)
        p2 m2 t3) 50 0 0) false err t4).executionsHistory).totalTasks = 2 ∧
    (summarize (endTask (recordTokens (startTask (endTask (recordTokens
        (startTask initialEvaluator p1 m1 t1) 100 0 0) true none t2)
        p2 m2 t3) 50 0 0) false err t4).executionsHistory).successRate = 1 / 2 ∧
    (summarize (endTask (recordTokens (startTask (endTask (recordTokens
        (startTask initialEvaluator p1 m1 t1) 100 0 0) true none t2)
        p2 m2 t3) 50 0 0) false err t4).executionsHistory).totalTokensUsed = 150 := by
  refine ⟨?_, ?_, ?_⟩ <;>
    simp [initialEvaluator, startTask, recordTokens, endTask, summarize,
      List.filter]

/-! ## JSON round-trip lemmas -/

theorem decodeNat_encodeNat (n : Nat) : decodeNat (Json.num (n : ℚ)) = some n := by
  simp [decodeNat, Rat.den_natCast, Rat.num_natCast, Int.toNat_natCast,
    Int.natCast_nonneg]

theorem encodeErrors_parses (errors : List (String × Nat)) :
    (errors.map (fun kv => (kv.1, Json.num (kv.2 : ℚ)))).mapM
      (fun kv => (decodeNat kv.2).map (fun n => (kv.1, n))) = some errors := by
  induction errors with
  | nil => rfl
  | cons kv rest ih =>
    simp only [List.map_cons, List.mapM_cons, decodeNat_encodeNat, ih]
    simp

theorem decodeErrors_encodeErrors (errors : List (String × Nat)) :
    decodeErrors (encodeErrors errors) = some errors := by
  simp only [decodeErrors, encodeErrors, encodeErrors_parses]

theorem decodeToolStats_encodeToolStats (st : ToolStats) :
    decodeToolStats (encodeToolStats st) = some st := by
  obtain ⟨total, successful, failed, rate, lastUsed, errors⟩ := st
  cases lastUsed with
  | none =>
    simp [encodeToolStats, decodeToolStats, decodeNat_encodeNat,
      decodeErrors_encodeErrors]
  | some s =>
    simp [encodeToolStats, decodeToolStats, decodeNat_encodeNat,
      decodeErrors_encodeErrors]

theorem saveStats_parses (stats : ToolStatsTable) :
    (stats.map (fun kv => (kv.1, encodeToolStats kv.2))).mapM
      (fun kv => (decodeToolStats kv.2).map (fun st => (kv.1, st))) =
        some stats := by
  induction stats with
  | nil => rfl
  | cons kv rest ih =>
    simp only [List.map_cons, List.mapM_cons,
      decodeToolStats_encodeToolStats, ih]
    simp

/-- C9: persisting the statistics table and reloading it reproduces every
per-tool record (counters, success rate, error histogram) identically. -/
theorem toolStats_roundtrip (stats : ToolStatsTable) :
    loadStats (saveStats stats) = stats := by
  simp only [loadStats, saveStats, saveStats_parses, Option.getD_some]

end BladeRunner
